import Mathlib

/-
Verification of the transform-stack and resampler design described in the
repository documentation (SimpleITK tutorial notebooks).  The notebooks call
into the wrapped SimpleITK library; the transform and resampling machinery
itself is not part of the repository sources, so those operations are
modelled from the specification text.  The DICOM series dropdown callback is
embedded directly from the notebook source.

Real-number coordinates are modelled by rationals so that every definition
is executable and every concrete evaluation is decidable; rotations are
represented by their (rational) matrices.
-/

namespace SITK

/-- Modelled from the spec: a Point is an ordered tuple of D real coordinates
in a physical (continuous) coordinate system. -/
abbrev Point (d : ℕ) := Fin d → ℚ

/-- Explicit inverse of a square rational matrix, used so that the inverse of
an affine transform stays executable.  Agrees with the Mathlib inverse when
the determinant is nonzero. -/
def matInv {d : ℕ} (A : Matrix (Fin d) (Fin d) ℚ) : Matrix (Fin d) (Fin d) ℚ :=
  (A.det)⁻¹ • A.adjugate

/-- Modelled from the spec: the Transform data model is polymorphic over the
variants Identity, Translation, Affine, Rigid and Composite.  The rigid
variant stores its rotation matrix explicitly (the matrix of the rotation
about the stored center, followed by the stored offset); a Composite owns an
ordered sequence of sub-transforms in insertion order. -/
inductive Transform (d : ℕ) where
  | ident : Transform d
  | translationBy (offset : Point d) : Transform d
  | affine (A : Matrix (Fin d) (Fin d) ℚ) (t : Point d) (center : Point d) : Transform d
  | rigid (R : Matrix (Fin d) (Fin d) ℚ) (t : Point d) (center : Point d) : Transform d
  | composite (subs : List (Transform d)) : Transform d

mutual

/-- Modelled from the spec: TransformPoint maps a point from the output domain
of the transform to its input domain.  Identity returns the point unchanged,
Translation adds the offset, Affine and Rigid apply their matrix about the
center and then the offset, and Composite applies its sub-transforms in
reverse insertion order (the last-added sub-transform touches the input point
first). -/
def TransformPoint {d : ℕ} : Transform d → Point d → Point d
  | .ident, p => p
  | .translationBy o, p => p + o
  | .affine A t c, p => A.mulVec (p - c) + c + t
  | .rigid R t c, p => R.mulVec (p - c) + c + t
  | .composite l, p => TPlist l p

/-- Application of a list of sub-transforms held in insertion order: the head
(first added) is applied last. -/
def TPlist {d : ℕ} : List (Transform d) → Point d → Point d
  | [], p => p
  | t :: ts, p => TransformPoint t (TPlist ts p)

end

/-- Modelled from the spec: an empty CompositeTransform of the given
dimension. -/
def CompositeTransform (d : ℕ) : Transform d := .composite []

/-- Modelled from the spec: AddTransform appends a sub-transform to a
Composite, preserving the existing order. -/
def AddTransform {d : ℕ} : Transform d → Transform d → Transform d
  | .composite l, t => .composite (l ++ [t])
  | s, t => .composite [s, t]

mutual

/-- Modelled from the spec: GetInverse returns the algebraic inverse for
Identity, Translation, Affine (when the matrix is invertible) and Rigid (when
the matrix is orthogonal), and for a Composite a Composite of the inverses of
the sub-transforms in reverse order.  A transform without a defined inverse
yields none (the NotInvertibleError failure of the spec). -/
def GetInverse {d : ℕ} : Transform d → Option (Transform d)
  | .ident => some .ident
  | .translationBy o => some (.translationBy (-o))
  | .affine A t c =>
      if A.det = 0 then none
      else some (.affine (matInv A) (-((matInv A).mulVec t)) c)
  | .rigid R t c =>
      if R * R.transpose = 1 then
        some (.rigid R.transpose (-(R.transpose.mulVec t)) c)
      else none
  | .composite l => (invList l).map .composite

/-- Inversion of a list of sub-transforms held in insertion order; the result
is the list of inverses in reverse order. -/
def invList {d : ℕ} : List (Transform d) → Option (List (Transform d))
  | [] => some []
  | t :: ts =>
      (invList ts).bind fun rs => (GetInverse t).bind fun r => some (rs ++ [r])

end


/-- Dimension accessor of a transform; fixed at construction. -/
def GetDimension {d : ℕ} (_ : Transform d) : ℕ := d

mutual

/-- Modelled from the spec: GetParameters returns the mutable parameter
vector.  For affine and rigid variants these are the matrix entries in
row-major order followed by the offset; for a Composite the parameters of the
last-added sub-transform are exposed. -/
def GetParameters {d : ℕ} : Transform d → List ℚ
  | .ident => []
  | .translationBy o => List.ofFn o
  | .affine A t _ => (List.ofFn fun i : Fin d => List.ofFn fun j : Fin d => A i j).flatten ++ List.ofFn t
  | .rigid R t _ => (List.ofFn fun i : Fin d => List.ofFn fun j : Fin d => R i j).flatten ++ List.ofFn t
  | .composite l => paramsList l

/-- Parameters of the last-added sub-transform of a list held in insertion
order. -/
def paramsList {d : ℕ} : List (Transform d) → List ℚ
  | [] => []
  | [t] => GetParameters t
  | _ :: t :: ts => paramsList (t :: ts)

end

mutual

/-- Modelled from the spec: SetParameters replaces the mutable parameter
vector only; the fixed parameters (the center) and the dimension are left
untouched.  For a Composite the parameters of the last-added sub-transform
are replaced. -/
def SetParameters {d : ℕ} : Transform d → List ℚ → Transform d
  | .ident, _ => .ident
  | .translationBy _, ps => .translationBy fun a => ps.getD a 0
  | .affine _ _ c, ps =>
      .affine (Matrix.of fun i j : Fin d => ps.getD ((i : ℕ) * d + (j : ℕ)) 0)
        (fun a => ps.getD (d * d + (a : ℕ)) 0) c
  | .rigid _ _ c, ps =>
      .rigid (Matrix.of fun i j : Fin d => ps.getD ((i : ℕ) * d + (j : ℕ)) 0)
        (fun a => ps.getD (d * d + (a : ℕ)) 0) c
  | .composite l, ps => .composite (setParamsList l ps)

/-- Replace the parameters of the last-added sub-transform of a list held in
insertion order. -/
def setParamsList {d : ℕ} : List (Transform d) → List ℚ → List (Transform d)
  | [], _ => []
  | [t], ps => [SetParameters t ps]
  | s :: t :: ts, ps => s :: setParamsList (t :: ts) ps

end

mutual

/-- Modelled from the spec: GetFixedParameters exposes the immutable
construction-time values, namely the rotation center of the affine and rigid
variants; for a Composite the fixed parameters of the sub-transforms are
concatenated in insertion order. -/
def GetFixedParameters {d : ℕ} : Transform d → List ℚ
  | .ident => []
  | .translationBy _ => []
  | .affine _ _ c => List.ofFn c
  | .rigid _ _ c => List.ofFn c
  | .composite l => fixedList l

/-- Concatenated fixed parameters of a list of sub-transforms. -/
def fixedList {d : ℕ} : List (Transform d) → List ℚ
  | [] => []
  | t :: ts => GetFixedParameters t ++ fixedList ts

end

/-- Pixel type tags of the image model; comparison operators always produce
eight-bit unsigned images. -/
inductive PixelType where
  | uInt8 : PixelType
  | uInt16 : PixelType
  | float32 : PixelType
  | float64 : PixelType
deriving DecidableEq

/-- Modelled from the spec: an Image is an N-dimensional regular grid of
pixels with integer extents per axis, the physical coordinate of the
index-zero voxel center, the physical distance between adjacent voxel
centers per axis, a direction cosine matrix, a pixel type tag and a buffer of
pixel values, modelled as a total function on index tuples (only indices
below the size are meaningful). -/
structure Image (d : ℕ) where
  size : Fin d → ℕ
  origin : Point d
  spacing : Fin d → ℚ
  direction : Matrix (Fin d) (Fin d) ℚ
  pixelType : PixelType
  pixels : (Fin d → ℕ) → ℚ

/-- Modelled from the spec: the output grid descriptor of a resampling
request.  Sizes are integers so that a non-positive entry can be requested
and rejected. -/
structure GridSpec (d : ℕ) where
  size : Fin d → ℤ
  origin : Point d
  spacing : Fin d → ℚ
  direction : Matrix (Fin d) (Fin d) ℚ

/-- Modelled from the spec: the failure taxonomy of the resampler. -/
inductive ResampleError where
  | invalidGrid : ResampleError
  | pixelTypeMismatch : ResampleError
deriving DecidableEq

/-- Modelled from the spec: index-to-physical mapping
physical = Origin + Direction x (Spacing * index), on continuous indices. -/
def TransformContinuousIndexToPhysicalPoint {d : ℕ} (img : Image d) (i : Fin d → ℚ) :
    Point d :=
  img.origin + img.direction.mulVec fun a => img.spacing a * i a

/-- Modelled from the spec: the inverse index-to-physical mapping, sending a
physical point to a continuous index of the image grid. -/
def TransformPhysicalPointToContinuousIndex {d : ℕ} (img : Image d) (p : Point d) :
    Fin d → ℚ :=
  fun a => (matInv img.direction).mulVec (p - img.origin) a / img.spacing a

/-- Modelled from the spec: the two interpolator kinds of the minimum set. -/
inductive Interpolator where
  | nearestNeighbor : Interpolator
  | linear : Interpolator
deriving DecidableEq

/-- Valid sampling extent for nearest-neighbor interpolation: the rounded
index must be an existing voxel index. -/
def nnInside {d : ℕ} (img : Image d) (c : Fin d → ℚ) : Prop :=
  ∀ a : Fin d, 0 ≤ round (c a) ∧ round (c a) ≤ (img.size a : ℤ) - 1

instance {d : ℕ} (img : Image d) (c : Fin d → ℚ) : Decidable (nnInside img c) := by
  unfold nnInside; infer_instance

/-- Valid sampling extent for linear interpolation, accounting for the
support of the kernel: all surrounding sample points must exist. -/
def linInside {d : ℕ} (img : Image d) (c : Fin d → ℚ) : Prop :=
  ∀ a : Fin d, 0 ≤ c a ∧ c a ≤ (img.size a : ℚ) - 1

instance {d : ℕ} (img : Image d) (c : Fin d → ℚ) : Decidable (linInside img c) := by
  unfold linInside; infer_instance

/-- Modelled from the spec: nearest-neighbor interpolation rounds the
continuous index to the nearest voxel index exactly. -/
def nnValue {d : ℕ} (img : Image d) (c : Fin d → ℚ) : ℚ :=
  img.pixels fun a => (round (c a)).toNat

/-- Fractional part of a continuous index coordinate. -/
def fracPart (x : ℚ) : ℚ := x - ⌊x⌋

/-- Modelled from the spec: linear interpolation forms the weighted average
of the 2 to the D surrounding samples. -/
def linValue {d : ℕ} (img : Image d) (c : Fin d → ℚ) : ℚ :=
  ∑ b : Fin d → Bool,
    (∏ a : Fin d, if b a then fracPart (c a) else 1 - fracPart (c a)) *
      img.pixels fun a => (⌊c a⌋).toNat + (if b a then 1 else 0)

/-- Inside test of the chosen interpolator. -/
def interpInside {d : ℕ} : Interpolator → Image d → (Fin d → ℚ) → Prop
  | .nearestNeighbor, img, c => nnInside img c
  | .linear, img, c => linInside img c

instance {d : ℕ} (interp : Interpolator) (img : Image d) (c : Fin d → ℚ) :
    Decidable (interpInside interp img c) :=
  match interp with
  | .nearestNeighbor => inferInstanceAs (Decidable (nnInside img c))
  | .linear => inferInstanceAs (Decidable (linInside img c))

/-- Value of the chosen interpolator. -/
def interpValue {d : ℕ} : Interpolator → Image d → (Fin d → ℚ) → ℚ
  | .nearestNeighbor, img, c => nnValue img c
  | .linear, img, c => linValue img c

/-- Modelled from the spec: the per-voxel resampling computation.  The output
grid index is mapped to an output physical point, through the transform into
source physical space, converted to a continuous source index, and either
interpolated or filled with the default value when outside the valid
sampling extent. -/
def resamplePixel {d : ℕ} (src : Image d) (grid : GridSpec d) (T : Transform d)
    (interp : Interpolator) (defaultValue : ℚ) (i : Fin d → ℕ) : ℚ :=
  let q : Point d := grid.origin + grid.direction.mulVec fun a => grid.spacing a * (i a : ℚ)
  let c := TransformPhysicalPointToContinuousIndex src (TransformPoint T q)
  if interpInside interp src c then interpValue interp src c else defaultValue

/-- Modelled from the spec: the Resampler contract.  The request fails
atomically with InvalidGridError when some size entry is non-positive;
otherwise the full output image over the requested grid is produced. -/
def Resample {d : ℕ} (src : Image d) (grid : GridSpec d) (T : Transform d)
    (interp : Interpolator) (defaultValue : ℚ) (outputPixelType : PixelType) :
    Except ResampleError (Image d) :=
  if ∀ a : Fin d, 0 < grid.size a then
    .ok
      { size := fun a => (grid.size a).toNat
        origin := grid.origin
        spacing := grid.spacing
        direction := grid.direction
        pixelType := outputPixelType
        pixels := resamplePixel src grid T interp defaultValue }
  else .error .invalidGrid

/-- Modelled from the spec: the own grid of an image, used when the output
grid is omitted. -/
def Image.ownGrid {d : ℕ} (img : Image d) : GridSpec d :=
  { size := fun a => (img.size a : ℤ)
    origin := img.origin
    spacing := img.spacing
    direction := img.direction }

/-- Corner point of the bounding box of an image: each axis contributes
either index zero or the full extent. -/
def cornerPoint {d : ℕ} (img : Image d) (b : Fin d → Bool) : Point d :=
  TransformContinuousIndexToPhysicalPoint img fun a => if b a then (img.size a : ℚ) else 0

/-- Corner of the source bounding box mapped through the inverse transform
into the output grid side. -/
def mappedCorner {d : ℕ} (img : Image d) (Tinv : Transform d) (b : Fin d → Bool) :
    Point d :=
  TransformPoint Tinv (cornerPoint img b)

/-- Modelled from the spec: the output-grid derivation helper.  Every corner
of the source bounding box is mapped through the inverse of the transform,
the per-axis minima and maxima of the mapped corners give the physical
bounds, the origin is the minimum corner, the spacing is reused from the
source, and the size is the ceiling of extent over spacing per axis. -/
def derivedGrid {d : ℕ} (img : Image d) (T : Transform d) : Option (GridSpec d) :=
  (GetInverse T).map fun Tinv =>
    let lo : Point d := fun a =>
      Finset.univ.inf' Finset.univ_nonempty fun b : Fin d → Bool => mappedCorner img Tinv b a
    let hi : Point d := fun a =>
      Finset.univ.sup' Finset.univ_nonempty fun b : Fin d → Bool => mappedCorner img Tinv b a
    { size := fun a => ⌈(hi a - lo a) / img.spacing a⌉
      origin := lo
      spacing := img.spacing
      direction := 1 }

/-- A value occurring in the buffer of an image at some valid index. -/
def hasValue {d : ℕ} (img : Image d) (v : ℚ) : Prop :=
  ∃ j : Fin d → ℕ, (∀ a, j a < img.size a) ∧ img.pixels j = v

/-- Modelled from the spec: the overloaded greater-than operator on an image
and a scalar, a per-pixel comparison producing an eight-bit binary image. -/
def gtScalar {d : ℕ} (img : Image d) (s : ℚ) : Image d :=
  { img with pixelType := .uInt8, pixels := fun i => if s < img.pixels i then 1 else 0 }

/-- Modelled from the spec: the overloaded greater-or-equal operator. -/
def geScalar {d : ℕ} (img : Image d) (s : ℚ) : Image d :=
  { img with pixelType := .uInt8, pixels := fun i => if s ≤ img.pixels i then 1 else 0 }

/-- Modelled from the spec: the overloaded less-than operator. -/
def ltScalar {d : ℕ} (img : Image d) (s : ℚ) : Image d :=
  { img with pixelType := .uInt8, pixels := fun i => if img.pixels i < s then 1 else 0 }

/-- Modelled from the spec: the overloaded less-or-equal operator. -/
def leScalar {d : ℕ} (img : Image d) (s : ℚ) : Image d :=
  { img with pixelType := .uInt8, pixels := fun i => if img.pixels i ≤ s then 1 else 0 }

/-- Modelled from the spec: the overloaded equality operator. -/
def eqScalar {d : ℕ} (img : Image d) (s : ℚ) : Image d :=
  { img with pixelType := .uInt8, pixels := fun i => if img.pixels i = s then 1 else 0 }

/-- Modelled from the spec: per-pixel addition of two images of the same
pixel type; the output keeps that pixel type. -/
def addImages {d : ℕ} (x y : Image d) : Image d :=
  { x with pixels := fun i => x.pixels i + y.pixels i }

/-- Fixed tag list of the DICOM series dropdown callback, in insertion
order, embedded from the notebook source. -/
def tags_to_print : List (String × String) :=
  [("0010|0010", "Patient name: "),
   ("0008|0060", "Modality: "),
   ("0008|0021", "Series date: "),
   ("0008|0031", "Series time:"),
   ("0008|0070", "Manufacturer: ")]

/-- One table row of the callback.  A metadata lookup is modelled as an
optional value; the try/except blocks of the source leave the cell empty
when the tag is missing. -/
def tagRow (fixedMeta movingMeta : String → Option String) (tl : String × String) :
    String :=
  "<tr><td>" ++ tl.2 ++ "</td><td>" ++ (fixedMeta tl.1).getD "" ++ "</td><td>" ++
    (movingMeta tl.1).getD "" ++ "</td></tr>"

/-- Result of the callback: the rendered table rows and the two globals it
assigns. -/
structure CallbackResult where
  html_table : List String
  selected_series_fixed : String
  selected_series_moving : String

/-- Embedding of DICOM_series_dropdown_callback from the notebook source.
The two images are represented by their metadata dictionaries, the display
side effect is dropped and the global assignments are returned as fields. -/
def DICOM_series_dropdown_callback (fixedMeta movingMeta : String → Option String)
    (fixed_image moving_image : String) : CallbackResult :=
  { html_table :=
      "<table><tr><td><b>Tag</b></td><td><b>Fixed Image</b></td><td><b>Moving Image</b></td></tr>"
        :: (tags_to_print.map (tagRow fixedMeta movingMeta) ++ ["</table>"])
    selected_series_fixed := fixed_image
    selected_series_moving := moving_image }

/-- Concrete one-dimensional image used by witnesses: two voxels, unit
spacing, origin zero, identity direction, pixel value equal to the index. -/
def img1 : Image 1 :=
  { size := ![2]
    origin := ![0]
    spacing := ![1]
    direction := 1
    pixelType := .uInt8
    pixels := fun j => (j 0 : ℚ) }

/-- The 64 x 64 unit-spacing zero-origin source image of the translation
scenario, over an arbitrary pixel buffer. -/
def imageGrid64 (pix : (Fin 2 → ℕ) → ℚ) : Image 2 :=
  { size := ![64, 64]
    origin := ![0, 0]
    spacing := ![1, 1]
    direction := 1
    pixelType := .float32
    pixels := pix }

/-- Source image of the translation scenario whose pixel value is the sum of
the two index coordinates. -/
def src4 : Image 2 := imageGrid64 fun j => (j 0 : ℚ) + (j 1 : ℚ)

/-- Output image produced by resampling src4 onto its own grid through the
translation by (3,4) with linear interpolation and default value 100. -/
def out4 : Image 2 :=
  { size := fun a => (src4.ownGrid.size a).toNat
    origin := src4.ownGrid.origin
    spacing := src4.ownGrid.spacing
    direction := src4.ownGrid.direction
    pixelType := .float32
    pixels := resamplePixel src4 src4.ownGrid (.translationBy ![3, 4]) .linear 100 }

/-- Two-voxel label image with values 0 and 10. -/
def src6 : Image 1 :=
  { size := ![2]
    origin := ![0]
    spacing := ![1]
    direction := 1
    pixelType := .uInt8
    pixels := fun j => if j 0 = 0 then 0 else 10 }

/-- One-voxel output grid whose sample point falls halfway between the two
voxels of src6. -/
def grid6 : GridSpec 1 :=
  { size := ![1]
    origin := ![1/2]
    spacing := ![1]
    direction := 1 }

/-- Output of resampling src6 onto grid6 with linear interpolation. -/
def out6 : Image 1 :=
  { size := fun a => (grid6.size a).toNat
    origin := grid6.origin
    spacing := grid6.spacing
    direction := grid6.direction
    pixelType := .uInt8
    pixels := resamplePixel src6 grid6 .ident .linear 100 }

/-- Output of resampling src6 onto grid6 with nearest-neighbor
interpolation. -/
def outN6 : Image 1 :=
  { size := fun a => (grid6.size a).toNat
    origin := grid6.origin
    spacing := grid6.spacing
    direction := grid6.direction
    pixelType := .uInt8
    pixels := resamplePixel src6 grid6 .ident .nearestNeighbor 100 }

/-- Grid with a zero size entry, requested to trigger the invalid grid
failure. -/
def grid7 : GridSpec 1 :=
  { size := ![0]
    origin := ![0]
    spacing := ![1]
    direction := 1 }

theorem matInv_mulVec_cancel {d : ℕ} {A : Matrix (Fin d) (Fin d) ℚ} (h : A.det ≠ 0)
    (v : Fin d → ℚ) : (matInv A).mulVec (A.mulVec v) = v := by
  rw [Matrix.mulVec_mulVec, matInv, Matrix.smul_mul, Matrix.adjugate_mul, smul_smul,
    inv_mul_cancel₀ h, one_smul, Matrix.one_mulVec]

theorem mulVec_matInv_cancel {d : ℕ} {A : Matrix (Fin d) (Fin d) ℚ} (h : A.det ≠ 0)
    (v : Fin d → ℚ) : A.mulVec ((matInv A).mulVec v) = v := by
  rw [Matrix.mulVec_mulVec, matInv, Matrix.mul_smul, Matrix.mul_adjugate, smul_smul,
    inv_mul_cancel₀ h, one_smul, Matrix.one_mulVec]

theorem TPlist_append {d : ℕ} (xs ys : List (Transform d)) (p : Point d) :
    TPlist (xs ++ ys) p = TPlist xs (TPlist ys p) := by
  induction xs with
  | nil => simp [TPlist]
  | cons x xs ih => simp [TPlist, ih]

mutual

/-- A defined inverse undoes the forward mapping, variant by variant. -/
theorem getInverse_left {d : ℕ} :
    ∀ (T J : Transform d), GetInverse T = some J →
      ∀ p : Point d, TransformPoint J (TransformPoint T p) = p
  | .ident, J, h, p => by
      simp [GetInverse] at h
      subst h
      simp [TransformPoint]
  | .translationBy o, J, h, p => by
      simp [GetInverse] at h
      subst h
      simp [TransformPoint]
  | .affine A t c, J, h, p => by
      rw [GetInverse] at h
      by_cases hdet : A.det = 0
      · simp [hdet] at h
      · simp [hdet] at h
        subst h
        simp only [TransformPoint]
        have hlin : (A.mulVec (p - c) + c + t) - c = A.mulVec (p - c) + t := by abel
        rw [hlin, Matrix.mulVec_add, matInv_mulVec_cancel hdet]
        abel
  | .rigid R t c, J, h, p => by
      rw [GetInverse] at h
      by_cases horth : R * R.transpose = 1
      · simp [horth] at h
        subst h
        have horth' : R.transpose * R = 1 := Matrix.mul_eq_one_comm.mp horth
        have hcancel : ∀ v : Fin d → ℚ, R.transpose.mulVec (R.mulVec v) = v := by
          intro v
          rw [Matrix.mulVec_mulVec, horth', Matrix.one_mulVec]
        simp only [TransformPoint]
        have hlin : (R.mulVec (p - c) + c + t) - c = R.mulVec (p - c) + t := by abel
        rw [hlin, Matrix.mulVec_add, hcancel]
        abel
      · simp [horth] at h
  | .composite l, J, h, p => by
      rw [GetInverse] at h
      rcases Option.map_eq_some'.mp h with ⟨ls, hls, hJ⟩
      subst hJ
      simp only [TransformPoint]
      exact invList_left l ls hls p

/-- The reversed inverse list undoes the forward list application. -/
theorem invList_left {d : ℕ} :
    ∀ (l ls : List (Transform d)), invList l = some ls →
      ∀ p : Point d, TPlist ls (TPlist l p) = p
  | [], ls, h, p => by
      simp [invList] at h
      subst h
      simp [TPlist]
  | t :: ts, ls, h, p => by
      rw [invList] at h
      rcases Option.bind_eq_some.mp h with ⟨rs, hrs, h2⟩
      rcases Option.bind_eq_some.mp h2 with ⟨r, hr, h3⟩
      rcases Option.some.injEq .. ▸ h3 with rfl
      rw [TPlist, TPlist_append]
      have h4 : TPlist [r] (TransformPoint t (TPlist ts p)) = TPlist ts p := by
        rw [TPlist, TPlist]
        exact getInverse_left t r hr (TPlist ts p)
      rw [h4]
      exact invList_left ts rs hrs p

end

theorem TPlist_eq_foldr {d : ℕ} (l : List (Transform d)) (p : Point d) :
    TPlist l p = l.foldr (fun t q => TransformPoint t q) p := by
  induction l with
  | nil => simp [TPlist]
  | cons t ts ih => simp [TPlist, ih]

theorem mapM'_concat {α β : Type} (f : α → Option β) (xs : List α) (x : α) :
    List.mapM' f (xs ++ [x]) =
      (List.mapM' f xs).bind fun rs => (f x).bind fun r => some (rs ++ [r]) := by
  induction xs with
  | nil => cases hfx : f x <;> simp [List.mapM', hfx]
  | cons y ys ih =>
      simp only [List.cons_append, List.mapM', List.append_eq]
      rw [ih]
      cases hfy : f y <;> simp [hfy]
      cases hys : List.mapM' f ys <;> simp [hys]
      cases hfx : f x <;> simp [hfx]

theorem invList_eq_mapM_reverse {d : ℕ} (l : List (Transform d)) :
    invList l = l.reverse.mapM GetInverse := by
  rw [← List.mapM'_eq_mapM]
  induction l with
  | nil => simp [invList, List.mapM']
  | cons t ts ih => rw [invList, ih, List.reverse_cons, mapM'_concat]

/-- C1: a Composite built by adding transform A and then transform B applies
its sub-transforms in reverse insertion order, so the whole list acts as a
right fold; for A the translation by (5,0) added first and B the translation
by (0,5) added second, the composite sends (0,0) to A(B((0,0))) = (5,5); and
composition is not commutative: there are two transforms and a point on
which the two add-orders give different results. -/
theorem composite_reverse_order_C1 :
    (∀ (d : ℕ) (l : List (Transform d)) (p : Point d),
        TransformPoint (.composite l) p = l.foldr (fun t q => TransformPoint t q) p) ∧
    (TransformPoint
        (AddTransform (AddTransform (CompositeTransform 2) (.translationBy ![5, 0]))
          (.translationBy ![0, 5])) ![0, 0]
      = TransformPoint (Transform.translationBy (d := 2) ![5, 0])
          (TransformPoint (.translationBy ![0, 5]) ![0, 0])) ∧
    (TransformPoint
        (AddTransform (AddTransform (CompositeTransform 2) (.translationBy ![5, 0]))
          (.translationBy ![0, 5])) ![0, 0] = ![5, 5]) ∧
    (∃ (A B : Transform 2) (p : Point 2),
        TransformPoint (AddTransform (AddTransform (CompositeTransform 2) A) B) p
          ≠ TransformPoint (AddTransform (AddTransform (CompositeTransform 2) B) A) p) := by
  refine ⟨fun d l p => ?_, ?_, ?_, ?_⟩
  · rw [TransformPoint]
    exact TPlist_eq_foldr l p
  · simp [CompositeTransform, AddTransform, TransformPoint, TPlist]
  · simp [CompositeTransform, AddTransform, TransformPoint, TPlist]
  · refine ⟨.rigid (Matrix.of ![![0, -1], ![1, 0]]) ![0, 0] ![0, 0],
      .translationBy ![1, 0], ![0, 0], ?_⟩
    simp only [CompositeTransform, AddTransform, List.nil_append, List.cons_append]
    simp only [TransformPoint, TPlist]
    intro hcontra
    have h0 := congrFun hcontra 0
    simp [Matrix.mulVec, Matrix.dotProduct, Fin.sum_univ_two, Matrix.vecHead,
      Matrix.vecTail] at h0

/-- C2: whenever GetInverse is defined, the inverse undoes the forward
mapping exactly on every point (the rational model makes the floating-point
tolerance exact); and on a Composite, GetInverse is the Composite of the
inverses of the sub-transforms in reverse order. -/
theorem inverse_roundtrip_C2 :
    (∀ (d : ℕ) (T J : Transform d) (p : Point d),
        GetInverse T = some J → TransformPoint J (TransformPoint T p) = p) ∧
    (∀ (d : ℕ) (l : List (Transform d)),
        GetInverse (Transform.composite l)
          = (l.reverse.mapM GetInverse).map Transform.composite) := by
  constructor
  · intro d T J p h
    exact getInverse_left T J h p
  · intro d l
    rw [GetInverse, invList_eq_mapM_reverse]

/-- Witness for C2: a concrete composite of a translation and a rotation
about the origin, inverted and applied after the forward mapping at the
point (7,9). -/
theorem inverse_roundtrip_C2_witness :
    TransformPoint
        (Transform.composite
          [Transform.rigid (Matrix.of ![![(0 : ℚ), 1], ![-1, 0]]) ![-2, 1] ![0, 0],
           Transform.translationBy ![-3, -4]])
        (TransformPoint
          (Transform.composite
            [Transform.translationBy ![3, 4],
             Transform.rigid (Matrix.of ![![(0 : ℚ), -1], ![1, 0]]) ![1, 2] ![0, 0]])
          ![7, 9]) = ![7, 9] :=
  inverse_roundtrip_C2.1 2 _ _ ![7, 9] (by
    have htr : (Matrix.of ![![(0 : ℚ), -1], ![1, 0]]).transpose
        = Matrix.of ![![(0 : ℚ), 1], ![-1, 0]] := by
      ext i j
      fin_cases i <;> fin_cases j <;> simp [Matrix.transpose_apply]
    have horth : Matrix.of ![![(0 : ℚ), -1], ![1, 0]] *
        Matrix.of ![![(0 : ℚ), 1], ![-1, 0]] = 1 := by
      ext i j
      fin_cases i <;> fin_cases j <;>
        simp [Matrix.mul_apply, Fin.sum_univ_two, Matrix.one_apply]
    have hneg : -(![(3 : ℚ), 4]) = ![-3, -4] := by
      funext a
      fin_cases a <;> simp
    simp [GetInverse, invList, htr, horth, hneg]
    funext a
    fin_cases a <;>
      simp [Matrix.vecHead, Matrix.vecTail, Pi.smul_apply, Function.comp])

theorem matInv_one {d : ℕ} : matInv (1 : Matrix (Fin d) (Fin d) ℚ) = 1 := by
  simp [matInv, Matrix.det_one, Matrix.adjugate_one]

theorem contIndex_physPoint {d : ℕ} (img : Image d)
    (hs : ∀ a, img.spacing a ≠ 0) (hdet : img.direction.det ≠ 0) (i : Fin d → ℚ) :
    TransformPhysicalPointToContinuousIndex img
      (TransformContinuousIndexToPhysicalPoint img i) = i := by
  funext a
  unfold TransformPhysicalPointToContinuousIndex TransformContinuousIndexToPhysicalPoint
  rw [add_sub_cancel_left, matInv_mulVec_cancel hdet]
  exact mul_div_cancel_left₀ (i a) (hs a)

theorem linValue_natCast {d : ℕ} (img : Image d) (j : Fin d → ℕ) :
    linValue img (fun a => (j a : ℚ)) = img.pixels j := by
  unfold linValue
  rw [Finset.sum_eq_single (fun _ => false)]
  · simp [fracPart, Int.floor_natCast]
  · intro b _ hb
    obtain ⟨a, ha⟩ := Function.ne_iff.mp hb
    have hba : b a = true := by
      cases hval : b a
      · exact absurd hval ha
      · rfl
    refine mul_eq_zero_of_left ?_ _
    refine Finset.prod_eq_zero (Finset.mem_univ a) ?_
    simp [hba, fracPart, Int.floor_natCast]
  · intro h
    exact absurd (Finset.mem_univ _) h

/-- C3: resampling any image through the Identity transform onto its own
grid reproduces the original pixel values exactly, both under
nearest-neighbor and under linear interpolation (the rational model makes
the rounding tolerance exact, as the sample points coincide with the
original voxel centers). -/
theorem resample_identity_selfgrid_C3 :
    ∀ (d : ℕ) (src : Image d) (dv : ℚ) (pt : PixelType),
      (∀ a, src.spacing a ≠ 0) → src.direction.det ≠ 0 → (∀ a, 0 < src.size a) →
      ∃ outN outL : Image d,
        Resample src src.ownGrid .ident .nearestNeighbor dv pt = .ok outN ∧
        Resample src src.ownGrid .ident .linear dv pt = .ok outL ∧
        ∀ i : Fin d → ℕ, (∀ a, i a < src.size a) →
          outN.pixels i = src.pixels i ∧ outL.pixels i = src.pixels i := by
  intro d src dv pt hs hdet hsz
  have hpos : ∀ a : Fin d, 0 < src.ownGrid.size a := by
    intro a
    simpa [Image.ownGrid] using Int.natCast_pos.mpr (hsz a)
  refine ⟨{ size := fun a => (src.ownGrid.size a).toNat
            origin := src.ownGrid.origin
            spacing := src.ownGrid.spacing
            direction := src.ownGrid.direction
            pixelType := pt
            pixels := resamplePixel src src.ownGrid .ident .nearestNeighbor dv },
          { size := fun a => (src.ownGrid.size a).toNat
            origin := src.ownGrid.origin
            spacing := src.ownGrid.spacing
            direction := src.ownGrid.direction
            pixelType := pt
            pixels := resamplePixel src src.ownGrid .ident .linear dv }, ?_, ?_, ?_⟩
  · rw [Resample, if_pos hpos]
  · rw [Resample, if_pos hpos]
  · intro i hi
    have hident : ∀ p : Point d, TransformPoint (Transform.ident (d := d)) p = p := by
      intro p
      simp [TransformPoint]
    have hc : TransformPhysicalPointToContinuousIndex src
        (TransformPoint (Transform.ident (d := d))
          (src.ownGrid.origin + src.ownGrid.direction.mulVec fun a =>
            src.ownGrid.spacing a * (i a : ℚ)))
        = fun a => (i a : ℚ) := by
      rw [hident]
      exact contIndex_physPoint src hs hdet fun a => (i a : ℚ)
    have hround : (fun a => (round ((i a : ℚ))).toNat) = i := by
      funext a
      rw [round_natCast]
      exact Int.toNat_natCast _
    constructor
    · show resamplePixel src src.ownGrid .ident .nearestNeighbor dv i = src.pixels i
      have hnn : nnInside src fun a => (i a : ℚ) := by
        intro a
        rw [round_natCast]
        have := hi a
        omega
      simp only [resamplePixel, hc, interpInside, interpValue]
      rw [if_pos hnn, nnValue, hround]
    · show resamplePixel src src.ownGrid .ident .linear dv i = src.pixels i
      have hlin : linInside src fun a => (i a : ℚ) := by
        intro a
        refine ⟨Nat.cast_nonneg _, ?_⟩
        have h1 : (i a : ℚ) + 1 ≤ (src.size a : ℚ) := by
          exact_mod_cast Nat.succ_le_of_lt (hi a)
        linarith
      simp only [resamplePixel, hc, interpInside, interpValue]
      rw [if_pos hlin, linValue_natCast]

/-- Witness for C3 at a concrete one-dimensional two-voxel image. -/
theorem resample_identity_selfgrid_C3_witness :
    ∃ outN outL : Image 1,
      Resample img1 img1.ownGrid .ident .nearestNeighbor 100 .uInt8 = .ok outN ∧
      Resample img1 img1.ownGrid .ident .linear 100 .uInt8 = .ok outL ∧
      ∀ i : Fin 1 → ℕ, (∀ a, i a < img1.size a) →
        outN.pixels i = img1.pixels i ∧ outL.pixels i = img1.pixels i :=
  resample_identity_selfgrid_C3 1 img1 100 .uInt8
    (by
      intro a
      fin_cases a
      norm_num [img1])
    (by norm_num [img1])
    (by
      intro a
      fin_cases a
      norm_num [img1])

/-- Counterexample to C4 as stated: under the resampling contract the
transform maps the output point into source space, so with Translation
offset (3,4) the output pixel at index (0,0) samples the source physical
point (3,4), which lies inside the source extent; for the source whose pixel
value is the index sum the output value is 7, not the default 100. -/
theorem resample_translation_default_C4_counterexample :
    Resample src4 src4.ownGrid (.translationBy ![3, 4]) .linear 100 .float32 = .ok out4 ∧
    out4.pixels (fun _ => 0) = 7 ∧ (7 : ℚ) ≠ 100 := by
  have hpos : ∀ a : Fin 2, 0 < src4.ownGrid.size a := by
    intro a
    fin_cases a <;> norm_num [src4, imageGrid64, Image.ownGrid]
  refine ⟨by rw [Resample, if_pos hpos]; rfl, ?_, by norm_num⟩
  show resamplePixel src4 src4.ownGrid (.translationBy ![3, 4]) .linear 100 (fun _ => 0) = 7
  have hc : TransformPhysicalPointToContinuousIndex src4
      (TransformPoint (.translationBy ![3, 4])
        (src4.ownGrid.origin + src4.ownGrid.direction.mulVec fun a =>
          src4.ownGrid.spacing a * (((fun _ => 0 : Fin 2 → ℕ) a : ℚ))))
      = fun a => (((![3, 4] : Fin 2 → ℕ) a : ℚ)) := by
    funext a
    fin_cases a <;>
      norm_num [src4, imageGrid64, Image.ownGrid, TransformPhysicalPointToContinuousIndex,
        TransformPoint, matInv_one, Matrix.one_mulVec, Matrix.vecHead, Matrix.vecTail]
  have hin : interpInside .linear src4 fun a => (((![3, 4] : Fin 2 → ℕ) a : ℚ)) := by
    simp only [interpInside]
    intro a
    fin_cases a <;> constructor <;> norm_num [src4, imageGrid64]
  simp only [resamplePixel, hc, interpValue]
  rw [if_pos hin, linValue_natCast]
  norm_num [src4, imageGrid64]

/-- C4 amended: the scenario holds with the offset negated.  Resampling the
64 x 64 unit-spacing image onto its own grid through the Translation by
(-3,-4) with linear interpolation and default value 100 yields 100 at output
index (0,0), whatever the source buffer holds, because the mapped source
point (-3,-4) lies outside the valid sampling extent. -/
theorem resample_translation_default_C4 :
    ∀ pix : (Fin 2 → ℕ) → ℚ,
      ∃ out : Image 2,
        Resample (imageGrid64 pix) (imageGrid64 pix).ownGrid (.translationBy ![-3, -4])
            .linear 100 .float32 = .ok out ∧
        out.pixels (fun _ => 0) = 100 := by
  intro pix
  have hpos : ∀ a : Fin 2, 0 < (imageGrid64 pix).ownGrid.size a := by
    intro a
    fin_cases a <;> norm_num [imageGrid64, Image.ownGrid]
  refine ⟨{ size := fun a => ((imageGrid64 pix).ownGrid.size a).toNat
            origin := (imageGrid64 pix).ownGrid.origin
            spacing := (imageGrid64 pix).ownGrid.spacing
            direction := (imageGrid64 pix).ownGrid.direction
            pixelType := .float32
            pixels := resamplePixel (imageGrid64 pix) (imageGrid64 pix).ownGrid
              (.translationBy ![-3, -4]) .linear 100 },
    by rw [Resample, if_pos hpos], ?_⟩
  show resamplePixel (imageGrid64 pix) (imageGrid64 pix).ownGrid
      (.translationBy ![-3, -4]) .linear 100 (fun _ => 0) = 100
  have hc : TransformPhysicalPointToContinuousIndex (imageGrid64 pix)
      (TransformPoint (.translationBy ![-3, -4])
        ((imageGrid64 pix).ownGrid.origin + (imageGrid64 pix).ownGrid.direction.mulVec fun a =>
          (imageGrid64 pix).ownGrid.spacing a * (((fun _ => 0 : Fin 2 → ℕ) a : ℚ))))
      = ![-3, -4] := by
    funext a
    fin_cases a <;>
      norm_num [imageGrid64, Image.ownGrid, TransformPhysicalPointToContinuousIndex,
        TransformPoint, matInv_one, Matrix.one_mulVec, Matrix.vecHead, Matrix.vecTail]
  have hout : ¬ interpInside .linear (imageGrid64 pix) ![-3, -4] := by
    simp only [interpInside]
    intro hall
    have h0 := (hall 0).1
    norm_num at h0
  simp only [resamplePixel, hc]
  rw [if_neg hout]

/-- C5: the corner-mapping output-grid derivation helper yields a grid whose
physical extent contains every source corner mapped through the inverse of
the transform; with the ceiling size derivation the containment is exact,
which is within the one-pixel rounding slack of the claim. -/
theorem derived_grid_contains_corners_C5 :
    ∀ (d : ℕ) (img : Image d) (T Tinv : Transform d),
      GetInverse T = some Tinv → (∀ a, 0 < img.spacing a) →
      ∃ g : GridSpec d, derivedGrid img T = some g ∧
        ∀ (b : Fin d → Bool) (a : Fin d),
          g.origin a ≤ mappedCorner img Tinv b a ∧
          mappedCorner img Tinv b a ≤ g.origin a + (g.size a : ℚ) * img.spacing a := by
  intro d img T Tinv hinv hsp
  refine ⟨{ size := fun a => ⌈((Finset.univ.sup' Finset.univ_nonempty fun b : Fin d → Bool =>
              mappedCorner img Tinv b a) -
              (Finset.univ.inf' Finset.univ_nonempty fun b : Fin d → Bool =>
              mappedCorner img Tinv b a)) / img.spacing a⌉
            origin := fun a => Finset.univ.inf' Finset.univ_nonempty fun b : Fin d → Bool =>
              mappedCorner img Tinv b a
            spacing := img.spacing
            direction := 1 }, ?_, ?_⟩
  · rw [derivedGrid, hinv]
    rfl
  · intro b a
    refine ⟨Finset.inf'_le _ (Finset.mem_univ b), ?_⟩
    have h1 : mappedCorner img Tinv b a ≤
        Finset.univ.sup' Finset.univ_nonempty fun b' : Fin d → Bool =>
          mappedCorner img Tinv b' a :=
      Finset.le_sup' (fun b' : Fin d → Bool => mappedCorner img Tinv b' a)
        (Finset.mem_univ b)
    set lo : ℚ := Finset.univ.inf' Finset.univ_nonempty fun b' : Fin d → Bool =>
      mappedCorner img Tinv b' a with hlo
    set hi : ℚ := Finset.univ.sup' Finset.univ_nonempty fun b' : Fin d → Bool =>
      mappedCorner img Tinv b' a with hhi
    have h2 : (hi - lo) / img.spacing a ≤ ((⌈(hi - lo) / img.spacing a⌉ : ℤ) : ℚ) :=
      Int.le_ceil _
    have h3 : hi - lo ≤ ((⌈(hi - lo) / img.spacing a⌉ : ℤ) : ℚ) * img.spacing a :=
      (div_le_iff₀ (hsp a)).mp h2
    linarith

/-- Witness for C5 at a concrete one-dimensional image and translation. -/
theorem derived_grid_contains_corners_C5_witness :
    ∃ g : GridSpec 1, derivedGrid img1 (.translationBy ![5]) = some g ∧
      ∀ (b : Fin 1 → Bool) (a : Fin 1),
        g.origin a ≤ mappedCorner img1 (.translationBy ![-5]) b a ∧
        mappedCorner img1 (.translationBy ![-5]) b a
          ≤ g.origin a + (g.size a : ℚ) * img1.spacing a :=
  derived_grid_contains_corners_C5 1 img1 (.translationBy ![5]) (.translationBy ![-5])
    (by
      have hneg : -(![(5 : ℚ)]) = ![-5] := by
        funext a
        fin_cases a
        simp
      simp [GetInverse, hneg])
    (by
      intro a
      fin_cases a
      norm_num [img1])

theorem linValue_one_dim (img : Image 1) (c : Fin 1 → ℚ) :
    linValue img c =
      fracPart (c 0) * img.pixels (fun _ => (⌊c 0⌋).toNat + 1) +
        (1 - fracPart (c 0)) * img.pixels (fun _ => (⌊c 0⌋).toNat) := by
  unfold linValue
  have hsum : (∑ b : Fin 1 → Bool,
      (∏ a : Fin 1, if b a then fracPart (c a) else 1 - fracPart (c a)) *
        img.pixels fun a => (⌊c a⌋).toNat + (if b a then 1 else 0))
    = ∑ x : Bool,
      (∏ a : Fin 1, if x then fracPart (c a) else 1 - fracPart (c a)) *
        img.pixels fun a => (⌊c a⌋).toNat + (if x then 1 else 0) := by
    refine (Fintype.sum_equiv (Equiv.funUnique (Fin 1) Bool).symm _ _ ?_).symm
    intro x
    rfl
  have harg1 : (fun a : Fin 1 => (⌊c a⌋).toNat + 1) = fun _ : Fin 1 => (⌊c 0⌋).toNat + 1 := by
    funext a
    rw [Subsingleton.elim a 0]
  have harg0 : (fun a : Fin 1 => (⌊c a⌋).toNat) = fun _ : Fin 1 => (⌊c 0⌋).toNat := by
    funext a
    rw [Subsingleton.elim a 0]
  rw [hsum, Fintype.sum_bool]
  simp [Fin.prod_univ_one, harg1, harg0]

theorem out6_value : out6.pixels (fun _ => 0) = 5 := by
  show resamplePixel src6 grid6 .ident .linear 100 (fun _ => 0) = 5
  have hc : TransformPhysicalPointToContinuousIndex src6
      (TransformPoint (Transform.ident (d := 1))
        (grid6.origin + grid6.direction.mulVec fun a =>
          grid6.spacing a * (((fun _ => 0 : Fin 1 → ℕ) a : ℚ))))
      = fun _ => (1/2 : ℚ) := by
    funext a
    fin_cases a
    norm_num [src6, grid6, TransformPhysicalPointToContinuousIndex, TransformPoint,
      matInv_one, Matrix.one_mulVec, Matrix.vecHead]
  have hin : interpInside .linear src6 fun _ => (1/2 : ℚ) := by
    simp only [interpInside]
    intro a
    constructor <;> norm_num [src6]
  have hfl : ⌊(1/2 : ℚ)⌋ = 0 := by
    rw [Int.floor_eq_iff]
    norm_num
  simp only [resamplePixel, hc, interpValue]
  rw [if_pos hin, linValue_one_dim]
  norm_num [fracPart, hfl, src6]

theorem src6_values : ∀ v : ℚ, hasValue src6 v → v = 0 ∨ v = 10 := by
  rintro v ⟨j, hj, hval⟩
  by_cases h0 : j 0 = 0
  · left
    rw [← hval]
    simp [src6, h0]
  · right
    rw [← hval]
    simp [src6, h0]

/-- C6: nearest-neighbor resampling only ever produces the default value or
a value present in the source buffer at a valid index, for every source,
grid, transform and output pixel; linear interpolation does not guarantee
this: the concrete half-voxel sample of the two-voxel label image src6
yields 5, which is neither the default 100 nor one of the source values. -/
theorem nn_label_preservation_C6 :
    (∀ (d : ℕ) (src : Image d) (grid : GridSpec d) (T : Transform d) (dv : ℚ)
        (pt : PixelType) (out : Image d),
        Resample src grid T .nearestNeighbor dv pt = .ok out →
        ∀ i : Fin d → ℕ, out.pixels i = dv ∨ hasValue src (out.pixels i)) ∧
    (Resample src6 grid6 .ident .linear 100 .uInt8 = .ok out6 ∧
      out6.pixels (fun _ => 0) = 5 ∧ (5 : ℚ) ≠ 100 ∧ ¬ hasValue src6 5) := by
  constructor
  · intro d src grid T dv pt out hok i
    rw [Resample] at hok
    by_cases hpos : ∀ a : Fin d, 0 < grid.size a
    · rw [if_pos hpos] at hok
      injection hok with hok
      subst hok
      show (resamplePixel src grid T .nearestNeighbor dv i = dv ∨
        hasValue src (resamplePixel src grid T .nearestNeighbor dv i))
      unfold resamplePixel
      set c := TransformPhysicalPointToContinuousIndex src
        (TransformPoint T (grid.origin + grid.direction.mulVec fun a =>
          grid.spacing a * (i a : ℚ))) with hc
      by_cases hin : interpInside .nearestNeighbor src c
      · right
        rw [if_pos hin]
        have hnn : nnInside src c := hin
        refine ⟨fun a => (round (c a)).toNat, fun a => ?_, rfl⟩
        have h1 := (hnn a).1
        have h2 := (hnn a).2
        show (round (c a)).toNat < src.size a
        omega
      · left
        rw [if_neg hin]
    · rw [if_neg hpos] at hok
      exact Except.noConfusion hok
  · refine ⟨?_, out6_value, by norm_num, ?_⟩
    · have hpos : ∀ a : Fin 1, 0 < grid6.size a := by
        intro a
        fin_cases a
        norm_num [grid6]
      rw [Resample, if_pos hpos]
      rfl
    · intro hv
      rcases src6_values 5 hv with h | h <;> norm_num at h

/-- Witness for C6 at the concrete nearest-neighbor resampling of src6. -/
theorem nn_label_preservation_C6_witness :
    outN6.pixels (fun _ => 0) = 100 ∨ hasValue src6 (outN6.pixels fun _ => 0) :=
  nn_label_preservation_C6.1 1 src6 grid6 .ident 100 .uInt8 outN6
    (by
      have hpos : ∀ a : Fin 1, 0 < grid6.size a := by
        intro a
        fin_cases a
        norm_num [grid6]
      rw [Resample, if_pos hpos]
      rfl)
    (fun _ => 0)

/-- C7: a resampling request whose output grid has a non-positive size entry
fails with the invalid-grid error at the call, and the failure is atomic: a
positive grid always yields the full output image, so no partial output is
ever produced. -/
theorem invalid_grid_atomic_C7 :
    ∀ (d : ℕ) (src : Image d) (grid : GridSpec d) (T : Transform d)
      (interp : Interpolator) (dv : ℚ) (pt : PixelType),
      ((∃ a, grid.size a ≤ 0) →
        Resample src grid T interp dv pt = .error .invalidGrid) ∧
      ((∀ a, 0 < grid.size a) →
        ∃ out, Resample src grid T interp dv pt = .ok out) := by
  intro d src grid T interp dv pt
  constructor
  · rintro ⟨a, ha⟩
    rw [Resample, if_neg]
    intro hall
    exact absurd (hall a) (by omega)
  · intro hpos
    exact ⟨_, by rw [Resample, if_pos hpos]⟩

/-- Witness for C7: requesting the zero-sized output grid fails with the
invalid-grid error. -/
theorem invalid_grid_atomic_C7_witness :
    Resample img1 grid7 .ident .linear 0 .uInt8 = .error .invalidGrid :=
  (invalid_grid_atomic_C7 1 img1 grid7 .ident .linear 0 .uInt8).1
    ⟨0, by norm_num [grid7]⟩

mutual

/-- The fixed parameters survive any SetParameters call, variant by
variant. -/
theorem fixedParams_setParams {d : ℕ} :
    ∀ (T : Transform d) (ps : List ℚ),
      GetFixedParameters (SetParameters T ps) = GetFixedParameters T
  | .ident, ps => by
      simp [SetParameters, GetFixedParameters]
  | .translationBy o, ps => by
      simp [SetParameters, GetFixedParameters]
  | .affine A t c, ps => by
      simp [SetParameters, GetFixedParameters]
  | .rigid R t c, ps => by
      simp [SetParameters, GetFixedParameters]
  | .composite l, ps => by
      rw [SetParameters, GetFixedParameters, GetFixedParameters]
      exact fixedList_setParamsList l ps

/-- The concatenated fixed parameters of a sub-transform list survive the
last-element parameter replacement. -/
theorem fixedList_setParamsList {d : ℕ} :
    ∀ (l : List (Transform d)) (ps : List ℚ),
      fixedList (setParamsList l ps) = fixedList l
  | [], ps => by
      simp [setParamsList]
  | [t], ps => by
      simp [setParamsList, fixedList, fixedParams_setParams t ps]
  | s :: t :: ts, ps => by
      simp [setParamsList, fixedList, fixedList_setParamsList (t :: ts) ps]

end

/-- C8: SetParameters touches the mutable parameter vector only: after any
SetParameters call on any variant, the fixed parameters (the construction
centers) and the dimension are unchanged. -/
theorem set_parameters_frame_C8 :
    ∀ (d : ℕ) (T : Transform d) (ps : List ℚ),
      GetFixedParameters (SetParameters T ps) = GetFixedParameters T ∧
      GetDimension (SetParameters T ps) = GetDimension T :=
  fun _ T ps => ⟨fixedParams_setParams T ps, rfl⟩

/-- C9: every scalar comparison operator yields an image of the eight-bit
unsigned pixel type whose pixels are all zero or one, and consequently the
per-pixel sum of two comparison results takes only the values zero, one and
two. -/
theorem comparison_binary_C9 :
    ∀ (d : ℕ) (img : Image d) (s t : ℚ) (i : Fin d → ℕ),
      ((gtScalar img s).pixelType = .uInt8 ∧
        ((gtScalar img s).pixels i = 0 ∨ (gtScalar img s).pixels i = 1)) ∧
      ((geScalar img s).pixelType = .uInt8 ∧
        ((geScalar img s).pixels i = 0 ∨ (geScalar img s).pixels i = 1)) ∧
      ((ltScalar img s).pixelType = .uInt8 ∧
        ((ltScalar img s).pixels i = 0 ∨ (ltScalar img s).pixels i = 1)) ∧
      ((leScalar img s).pixelType = .uInt8 ∧
        ((leScalar img s).pixels i = 0 ∨ (leScalar img s).pixels i = 1)) ∧
      ((eqScalar img s).pixelType = .uInt8 ∧
        ((eqScalar img s).pixels i = 0 ∨ (eqScalar img s).pixels i = 1)) ∧
      ((addImages (gtScalar img s) (gtScalar img t)).pixelType = .uInt8 ∧
        ((addImages (gtScalar img s) (gtScalar img t)).pixels i = 0 ∨
          (addImages (gtScalar img s) (gtScalar img t)).pixels i = 1 ∨
          (addImages (gtScalar img s) (gtScalar img t)).pixels i = 2)) := by
  intro d img s t i
  refine ⟨⟨rfl, ?_⟩, ⟨rfl, ?_⟩, ⟨rfl, ?_⟩, ⟨rfl, ?_⟩, ⟨rfl, ?_⟩, ⟨rfl, ?_⟩⟩
  · by_cases h : s < img.pixels i <;> simp [gtScalar, h]
  · by_cases h : s ≤ img.pixels i <;> simp [geScalar, h]
  · by_cases h : img.pixels i < s <;> simp [ltScalar, h]
  · by_cases h : img.pixels i ≤ s <;> simp [leScalar, h]
  · by_cases h : img.pixels i = s <;> simp [eqScalar, h]
  · by_cases h1 : s < img.pixels i <;> by_cases h2 : t < img.pixels i <;>
      simp [addImages, gtScalar, h1, h2]
    all_goals norm_num


/-- C10: the DICOM series dropdown callback never fails on a missing
metadata tag: the cell of a missing tag is rendered as the empty string, all
the tags of the fixed tag list are processed into table rows, and the two
selected-series globals are always set to the chosen series identifiers. -/
theorem dropdown_callback_C10 :
    ∀ (fixedMeta movingMeta : String → Option String) (f m : String),
      (DICOM_series_dropdown_callback fixedMeta movingMeta f m).selected_series_fixed = f ∧
      (DICOM_series_dropdown_callback fixedMeta movingMeta f m).selected_series_moving = m ∧
      (DICOM_series_dropdown_callback fixedMeta movingMeta f m).html_table.length
        = tags_to_print.length + 2 ∧
      (∀ tl ∈ tags_to_print,
        tagRow fixedMeta movingMeta tl ∈
          (DICOM_series_dropdown_callback fixedMeta movingMeta f m).html_table) ∧
      (∀ tl : String × String, fixedMeta tl.1 = none →
        tagRow fixedMeta movingMeta tl
          = "<tr><td>" ++ tl.2 ++ "</td><td>" ++ "" ++ "</td><td>" ++
              (movingMeta tl.1).getD "" ++ "</td></tr>") ∧
      (∀ tl : String × String, movingMeta tl.1 = none →
        tagRow fixedMeta movingMeta tl
          = "<tr><td>" ++ tl.2 ++ "</td><td>" ++ (fixedMeta tl.1).getD "" ++
              "</td><td>" ++ "" ++ "</td></tr>") := by
  intro fixedMeta movingMeta f m
  refine ⟨rfl, rfl, ?_, ?_, ?_, ?_⟩
  · simp [DICOM_series_dropdown_callback, tags_to_print]
  · intro tl hmem
    simp only [DICOM_series_dropdown_callback, List.mem_cons, List.mem_append,
      List.mem_map]
    exact Or.inr (Or.inl ⟨tl, hmem, rfl⟩)
  · intro tl hnone
    rw [tagRow, hnone]
    rfl
  · intro tl hnone
    rw [tagRow, hnone]
    rfl

/-- Witness for C10: with a fixed image missing every tag and a moving image
answering CT to every tag, the globals are set to the chosen identifiers,
the Modality row renders an empty fixed cell, and the Patient name row is in
the table. -/
theorem dropdown_callback_C10_witness :
    (DICOM_series_dropdown_callback (fun _ => none) (fun _ => some "CT")
        "series-1" "series-2").selected_series_fixed = "series-1" ∧
    tagRow (fun _ => none) (fun _ => some "CT") ("0008|0060", "Modality: ")
      = "<tr><td>" ++ "Modality: " ++ "</td><td>" ++ "" ++ "</td><td>" ++
          (((fun _ => some "CT") : String → Option String) "0008|0060").getD ""
          ++ "</td></tr>" ∧
    tagRow (fun _ => none) (fun _ => some "CT") ("0010|0010", "Patient name: ")
      ∈ (DICOM_series_dropdown_callback (fun _ => none) (fun _ => some "CT")
          "series-1" "series-2").html_table :=
  ⟨(dropdown_callback_C10 (fun _ => none) (fun _ => some "CT") "series-1" "series-2").1,
   (dropdown_callback_C10 (fun _ => none) (fun _ => some "CT")
      "series-1" "series-2").2.2.2.2.1 ("0008|0060", "Modality: ") rfl,
   (dropdown_callback_C10 (fun _ => none) (fun _ => some "CT")
      "series-1" "series-2").2.2.2.1 ("0010|0010", "Patient name: ")
      (by simp [tags_to_print])⟩

end SITK
